import Mathlib

/-!
Verification development for the wp-md reconciliation engine.

The source is a JavaScript CLI that keeps a local tree of markdown files in
sync with a remote WordPress site.  The definitions below are a shallow
embedding of the relevant source functions:

* `hashContent` / `hashContentStr` embed `hashContent` from
  `src/sync/content.js` (the change-detection digest), including the
  JavaScript 32-bit signed-integer wrap-around of `(hash << 5) - hash + char`
  followed by `hash & hash`, and the `Number.prototype.toString(16)`
  rendering (sign, lowercase hex, no padding).
* `loadState` / `saveStateOps` embed `loadState` / `saveState` from
  `src/config.js`: state files are read with a catch-all fallback to the
  empty state, and saved with one direct `writeFile` of the serialized JSON.
* The codec section embeds `wpToMarkdown`, `parseFrontmatter` and
  `markdownToWp` from `src/sync/content.js`; the external YAML library is
  modelled by a pair of function parameters (`stringifyYaml`, `parseYaml`).
* `handleLocalChange` embeds the push path of `src/commands/watch.js`
  (the per-file body of `pushCommand` in `src/commands/push.js` is the same
  logic); the remote client is modelled by the list of `RemoteCall`s issued
  and the id the remote returns on create.
* `pollStep` / `pollWordPress` embed the per-item body and the item loop of
  `pollWordPress` from `src/commands/watch.js`; the filesystem is a map from
  path to optional content, reads that throw are `none`.
* The watcher section embeds the `add` handler, the debounce bookkeeping of
  `debouncedChange` and the self-write suppression of `writeFileSafe` as a
  discrete-time model: timers set at `t` fire at `t + debounceMs` unless
  reset, and a path written by the poll at `tw` is suppressed on `[tw, tw+2000)`.
-/

/-- JavaScript `ToInt32`: reduce an integer modulo `2^32` into the signed
range `[-2^31, 2^31)`.  This is what `hash & hash` performs in the source. -/
def toInt32 (n : Int) : Int :=
  let m := n % 4294967296
  if m < 2147483648 then m else m - 4294967296

/-- One iteration of the digest loop in `hashContent`
(`src/sync/content.js`): `hash = ((hash << 5) - hash) + char; hash = hash & hash`.
`hash << 5` wraps to int32 on its own, the final `& hash` wraps the sum. -/
def hashStep (h : Int) (c : Nat) : Int :=
  toInt32 (toInt32 (h * 32) - h + c)

/-- The digest accumulator of `hashContent` over the code units of the input. -/
def hashContent (units : List Nat) : Int :=
  units.foldl hashStep 0

/-- JavaScript `Number.prototype.toString(16)` for an integer value:
lowercase hex digits, no leading zeros, a leading minus sign when negative. -/
def jsHexString (h : Int) : String :=
  if h < 0 then "-" ++ String.mk (Nat.toDigits 16 h.natAbs)
  else String.mk (Nat.toDigits 16 h.toNat)

/-- `hashContent` from `src/sync/content.js` as a function on strings:
fold the step over the character codes, then render in base 16. -/
def hashContentStr (s : String) : String :=
  jsHexString (hashContent (s.data.map Char.toNat))

/-- One `TrackedFile` entry of the persisted sync state:
`{ id, type, localHash, remoteHash, lastSync }`. -/
structure TrackedEntry where
  id : Nat
  typ : String
  localHash : String
  remoteHash : String
  lastSync : Nat
deriving DecidableEq

/-- The `files` map of the sync state: path to optional tracked entry. -/
def StateFiles : Type := String → Option TrackedEntry

/-- The whole persisted sync state object `{ files, lastSync }`. -/
structure SyncState where
  files : StateFiles
  lastSync : Option Nat

/-- `state.files[path] = entry` from the source. -/
def updateFiles (st : StateFiles) (p : String) (e : TrackedEntry) : StateFiles :=
  fun q => if q = p then some e else st q

/-- `loadState` from `src/config.js`: read the state file and parse it;
any failure (missing file or parse error) yields `{ files: {}, lastSync: null }`.
The file content is `none` when no prior state exists, and the external
`JSON.parse` is the `parseJson` parameter. -/
def loadState (raw : Option String) (parseJson : String → Option SyncState) : SyncState :=
  match raw with
  | some data =>
    match parseJson data with
    | some st => st
    | none => ⟨fun _ => none, none⟩
  | none => ⟨fun _ => none, none⟩

/-- A filesystem operation, for describing what `saveState` does on disk. -/
inductive FsOp where
  | write (path content : String)
  | rename (src dst : String)
deriving DecidableEq

/-- The local filesystem: path to optional file content. -/
def Fs : Type := String → Option String

/-- `join(baseDir, STATE_FILE)` for the state file `.wpmd-state.json`. -/
def stateFilePath (dir : String) : String :=
  dir ++ "/.wpmd-state.json"

/-- `saveState` from `src/config.js` as the list of filesystem operations it
performs: one direct `writeFile` of the serialized state to the state file
path (there is no temporary file and no rename). -/
def saveStateOps (dir : String) (payload : String) : List FsOp :=
  [FsOp.write (stateFilePath dir) payload]

/-- Apply one completed filesystem operation. -/
def runOp (fs : Fs) : FsOp → Fs
  | FsOp.write p c => fun q => if q = p then some c else fs q
  | FsOp.rename src dst => fun q => if q = dst then fs src else if q = src then none else fs q

/-- Apply a list of completed filesystem operations in order. -/
def runOps (fs : Fs) (ops : List FsOp) : Fs :=
  ops.foldl runOp fs

/-- Crash semantics: run the operations before index `i` to completion, then
crash partway through operation `i`.  A `write` interrupted after `k` bytes
leaves the first `k` bytes of the new content in the file; a `rename` is
atomic, so crashing during it leaves the previous state. -/
def crashDuring (fs : Fs) (ops : List FsOp) (i k : Nat) : Fs :=
  let fs1 := runOps fs (ops.take i)
  match ops[i]? with
  | some (FsOp.write p c) => fun q => if q = p then some (String.mk (c.data.take k)) else fs1 q
  | some (FsOp.rename _ _) => fs1
  | none => fs1

/-- The subset of the YAML frontmatter that the claims are about
(`buildFrontmatter` in `src/sync/content.js` adds more optional fields;
those are irrelevant to id/type/body recovery). The `id` is optional:
a hand-written file may omit it. -/
structure Frontmatter where
  id : Option Nat
  typ : String
  title : String
  slug : String
  status : String
deriving DecidableEq

/-- A remote WordPress item as consumed by the codec.  `content` on the wire
is an object with optional `raw` and `rendered`; the source prefers
`content.raw`, then `content.rendered`, then the empty string. -/
structure WpItem where
  id : Nat
  slug : String
  status : String
  title : String
  contentRaw : Option String
  contentRendered : Option String
deriving DecidableEq

/-- The body text selected by `wpToMarkdown`:
`item.content?.raw ?? item.content?.rendered ?? ''`. -/
def resolveContent (it : WpItem) : String :=
  match it.contentRaw with
  | some r => r
  | none =>
    match it.contentRendered with
    | some r => r
    | none => ""

/-- The frontmatter record built by `buildFrontmatter(item, contentType)`:
`id`, `type`, `slug`, `status`, `title` (restricted to the modelled fields). -/
def buildFrontmatter (it : WpItem) (contentType : String) : Frontmatter :=
  ⟨some it.id, contentType, it.title, it.slug, it.status⟩

/-- Whitespace for the model of JavaScript `String.prototype.trim`. -/
def isJsSpace (c : Char) : Bool :=
  c = ' ' || c = '\n' || c = '\t' || c = '\r'

/-- JavaScript `String.prototype.trim` on a character list. -/
def jsTrimL (l : List Char) : List Char :=
  ((l.dropWhile isJsSpace).reverse.dropWhile isJsSpace).reverse

/-- JavaScript `String.prototype.trim`. -/
def jsTrim (s : String) : String :=
  String.mk (jsTrimL s.data)

/-- `wpToMarkdown(item, contentType)` from `src/sync/content.js`:
`"---\n" + YAML.stringify(frontmatter).trim() + "\n---\n" + content`.
The external YAML serializer is the `stringifyYaml` parameter. -/
def wpToMarkdown (stringifyYaml : Frontmatter → String) (item : WpItem)
    (contentType : String) : String :=
  "---\n" ++ jsTrim (stringifyYaml (buildFrontmatter item contentType)) ++ "\n---\n"
    ++ resolveContent item

/-- Find the first occurrence of the closing delimiter `"\n---"` in the text
after the opening line, returning the text before it and the text after it.
This is the lazy group of the regex
`^---\n([\s\S]*?)\n---\n?([\s\S]*)$` in `parseFrontmatter`. -/
def splitAtDelim : List Char → Option (List Char × List Char)
  | [] => none
  | c :: cs =>
    if ['\n', '-', '-', '-'].isPrefixOf (c :: cs) then
      some ([], cs.drop 3)
    else
      match splitAtDelim cs with
      | some (a, b) => some (c :: a, b)
      | none => none

/-- Whether the text contains the closing delimiter `"\n---"` anywhere. -/
def containsDelim : List Char → Bool
  | [] => false
  | c :: cs => ['\n', '-', '-', '-'].isPrefixOf (c :: cs) || containsDelim cs

/-- `parseFrontmatter` from `src/sync/content.js` on character lists:
the document must start with `"---\n"`; the frontmatter text runs to the
first `"\n---"`; one following newline (the regex `\n?`) is consumed
greedily; the rest is the content.  `none` models the thrown
`Invalid file format` error. -/
def parseFrontmatterL (s : List Char) : Option (List Char × List Char) :=
  if ['-', '-', '-', '\n'].isPrefixOf s then
    match splitAtDelim (s.drop 4) with
    | some (y, rest) =>
      match rest with
      | '\n' :: tail => some (y, tail)
      | _ => some (y, rest)
    | none => none
  else none

/-- `parseFrontmatter` on strings. -/
def parseFrontmatter (s : String) : Option (String × String) :=
  match parseFrontmatterL s.data with
  | some (y, c) => some (String.mk y, String.mk c)
  | none => none

/-- The `data` payload assembled by `markdownToWp` (restricted to the
modelled fields; `content` is the body below the frontmatter). -/
structure WpData where
  title : String
  slug : String
  status : String
  content : String
deriving DecidableEq

/-- The value returned by `markdownToWp`: `{ id, type, data }`. -/
structure ParsedWp where
  id : Option Nat
  typ : String
  data : WpData
deriving DecidableEq

/-- `markdownToWp(fileContent)` from `src/sync/content.js`: split off the
frontmatter, parse it with the external YAML parser (`parseYaml`), and
return `{ id, type, data }` with the body as `data.content`.  `none` models
the error thrown on a missing frontmatter block. -/
def markdownToWp (parseYaml : String → Frontmatter) (fileContent : String) :
    Option ParsedWp :=
  match parseFrontmatter fileContent with
  | none => none
  | some (fmText, content) =>
    let fm := parseYaml fmText
    some ⟨fm.id, fm.typ, ⟨fm.title, fm.slug, fm.status, content⟩⟩

/-- A call issued to the remote store client. -/
inductive RemoteCall where
  | update (typ : String) (id : Nat) (data : WpData)
  | create (typ : String) (data : WpData)
deriving DecidableEq

/-- The push path of `handleLocalChange` in `src/commands/watch.js` (the
per-file body of `pushCommand` in `src/commands/push.js` is the same logic).
Input: the file content as read from disk.  A path in `writingFiles` is
skipped; a file whose frontmatter block is missing throws, which the source
catches without mutating state.  Otherwise: update when the parsed payload
has an id, else create (the remote answers with `createdId`), then record
`localHash = remoteHash = hashContent(content)`.  The remote client is
modelled by the returned list of calls; `now` is the timestamp written. -/
def handleLocalChange (parseYaml : String → Frontmatter) (now createdId : Nat)
    (writingFiles : List String) (st : StateFiles)
    (filepath relativePath : String) (content : String) :
    StateFiles × List RemoteCall :=
  if writingFiles.contains filepath then (st, [])
  else
    match markdownToWp parseYaml content with
    | none => (st, [])
    | some parsed =>
      let h := hashContentStr content
      match parsed.id with
      | some i =>
        (updateFiles st relativePath ⟨i, parsed.typ, h, h, now⟩,
          [RemoteCall.update parsed.typ i parsed.data])
      | none =>
        (updateFiles st relativePath ⟨createdId, parsed.typ, h, h, now⟩,
          [RemoteCall.create parsed.typ parsed.data])

/-- One observed remote item inside a poll or pull cycle, after rendering:
its target relative path, its id, its content type and the rendered
markdown (`wpToMarkdown(item, type)`). -/
structure RemoteObs where
  path : String
  id : Nat
  typ : String
  markdown : String
deriving DecidableEq

/-- The per-item body of `pullCommand` in `src/commands/pull.js`:
write the file and reset the entry when the item is new, when the stored
`remoteHash` differs from the digest of the rendered markdown, or when
`--force` is given.  The second component is the list of paths written. -/
def pullItem (now : Nat) (force : Bool) (st : StateFiles) (it : RemoteObs) :
    StateFiles × List String :=
  let hash := hashContentStr it.markdown
  let isNew := (st it.path).isNone
  let isChanged :=
    match st it.path with
    | some e => decide (e.remoteHash ≠ hash)
    | none => false
  if isNew || isChanged || force then
    (updateFiles st it.path ⟨it.id, it.typ, hash, hash, now⟩, [it.path])
  else (st, [])

/-- A file write performed through `writeFileSafe`. -/
def fsWrite (fs : Fs) (p content : String) : Fs :=
  fun q => if q = p then some content else fs q

/-- The per-item body of `pollWordPress` in `src/commands/watch.js`.
Returns the new `files` map, the new local filesystem, the list of paths
written and the list of paths reported as conflicts:

* no entry: pull (write the file, record `local = remote = digest`);
* stored `remoteHash` equals the observed digest: ignore;
* remote changed, local file readable and its digest equals the stored
  `localHash`: pull over the local file, keep id and type;
* remote changed, local digest differs: conflict, nothing written, nothing
  mutated;
* remote changed, local file unreadable: pull, recreate the entry. -/
def pollStep (now : Nat) (st : StateFiles) (fs : Fs) (it : RemoteObs) :
    StateFiles × Fs × List String × List String :=
  let remoteHash := hashContentStr it.markdown
  match st it.path with
  | none =>
    (updateFiles st it.path ⟨it.id, it.typ, remoteHash, remoteHash, now⟩,
      fsWrite fs it.path it.markdown, [it.path], [])
  | some e =>
    if e.remoteHash = remoteHash then (st, fs, [], [])
    else
      match fs it.path with
      | some localContent =>
        if hashContentStr localContent = e.localHash then
          (updateFiles st it.path
              { e with localHash := remoteHash, remoteHash := remoteHash, lastSync := now },
            fsWrite fs it.path it.markdown, [it.path], [])
        else (st, fs, [], [it.path])
      | none =>
        (updateFiles st it.path ⟨it.id, it.typ, remoteHash, remoteHash, now⟩,
          fsWrite fs it.path it.markdown, [it.path], [])

/-- The item loop of `pollWordPress`: process the observed remote items in
order, threading the state and the filesystem, concatenating the written
paths and the reported conflicts. -/
def pollWordPress (now : Nat) (items : List RemoteObs) (st : StateFiles) (fs : Fs) :
    StateFiles × Fs × List String × List String :=
  match items with
  | [] => (st, fs, [], [])
  | it :: rest =>
    let r1 := pollStep now st fs it
    let r2 := pollWordPress now rest r1.1 r1.2.1
    (r2.1, r2.2.1, r1.2.2.1 ++ r2.2.2.1, r1.2.2.2 ++ r2.2.2.2)

/-- Outcome of the watcher `add` handler in `createSiteWatcher`
(`src/commands/watch.js`). -/
inductive AddOutcome where
  | dropped
  | advisory
  | debounced
deriving DecidableEq

/-- The watcher `add` handler: a path in `writingFiles` is dropped at
arrival; a path with no tracked entry gets the advisory (create via CLI)
and no sync action; a tracked path is handed to `debouncedChange`. -/
def onAdd (writingFiles : List String) (st : StateFiles)
    (filepath relativePath : String) : AddOutcome :=
  if writingFiles.contains filepath then AddOutcome.dropped
  else
    match st relativePath with
    | none => AddOutcome.advisory
    | some _ => AddOutcome.debounced

/-- The remote calls an `add` event can lead to: only the `debounced`
outcome reaches `handleLocalChange`; the other outcomes return before any
client call. -/
def addEventRemoteCalls (parseYaml : String → Frontmatter) (now createdId : Nat)
    (writingFiles : List String) (st : StateFiles)
    (filepath relativePath : String) (content : String) : List RemoteCall :=
  match onAdd writingFiles st filepath relativePath with
  | AddOutcome.debounced =>
    (handleLocalChange parseYaml now createdId writingFiles st filepath relativePath content).2
  | _ => []

/-- Whether path `p` is in the self-write suppression set at time `t`:
`writeFileSafe` adds the path before the write at time `tw` and schedules
its removal 2000 ms later, so the path is suppressed on `[tw, tw + 2000)`.
`pollWrites` lists the (path, time) pairs of poll-triggered writes. -/
def suppressedAt (pollWrites : List (String × Nat)) (p : String) (t : Nat) : Bool :=
  pollWrites.any (fun w => w.1 = p && w.2 ≤ t && t < w.2 + 2000)

/-- Whether the debounce timer set by the change event `(p, t)` survives:
`debouncedChange` clears and resets the timer on every new event for the
same path, so the timer set at `t` fires at `t + d` iff no further change
event for `p` arrives strictly inside `(t, t + d)`. -/
def timerFires (changes : List (String × Nat)) (d : Nat) (p : String) (t : Nat) : Bool :=
  (p, t) ∈ changes && !(changes.any (fun ev => ev.1 = p && t < ev.2 && ev.2 < t + d))

/-- Whether `handleLocalChange` for path `p` starts running (gets past the
`writingFiles` check, which it performs at timer-fire time) at time `tf`:
some change event for `p` fired its debounce timer at `tf` and `p` is not
suppressed at `tf`.  Every watcher-driven push is initiated this way. -/
def pushAttemptAt (pollWrites changes : List (String × Nat)) (d : Nat)
    (p : String) (tf : Nat) : Bool :=
  changes.any (fun ev => ev.1 = p && ev.2 + d = tf && timerFires changes d p ev.2)
    && !(suppressedAt pollWrites p tf)

/-! ### Branch lemmas for the poll step -/

/-- Ignore branch: nothing changed remotely since the last sync. -/
lemma pollStep_ignore (now : Nat) (st : StateFiles) (fs : Fs) (it : RemoteObs)
    (e : TrackedEntry) (hentry : st it.path = some e)
    (hremote : e.remoteHash = hashContentStr it.markdown) :
    pollStep now st fs it = (st, fs, [], []) := by
  unfold pollStep
  rw [hentry]
  simp [hremote]

/-- Conflict branch: remote changed and the local file digest differs from
the stored one; nothing is written, nothing is mutated, one conflict. -/
lemma pollStep_conflict (now : Nat) (st : StateFiles) (fs : Fs) (it : RemoteObs)
    (e : TrackedEntry) (lc : String) (hentry : st it.path = some e)
    (hremote : ¬ e.remoteHash = hashContentStr it.markdown)
    (hlocal : fs it.path = some lc)
    (hdiff : ¬ hashContentStr lc = e.localHash) :
    pollStep now st fs it = (st, fs, [], [it.path]) := by
  unfold pollStep
  rw [hentry]
  simp only [if_neg hremote]
  rw [hlocal]
  simp [hdiff]

/-- A poll step only touches the observed item's own path. -/
lemma pollStep_path_ne (now : Nat) (st : StateFiles) (fs : Fs) (it : RemoteObs)
    (q : String) (hq : q ≠ it.path) :
    (pollStep now st fs it).1 q = st q ∧ (pollStep now st fs it).2.1 q = fs q := by
  unfold pollStep
  rcases hst : st it.path with _ | e
  · simp [updateFiles, fsWrite, hq]
  · by_cases hr : e.remoteHash = hashContentStr it.markdown
    · simp [hr]
    · rcases hfs : fs it.path with _ | lc
      · simp [hr, updateFiles, fsWrite, hq]
      · by_cases hl : hashContentStr lc = e.localHash
        · simp [hr, hl, updateFiles, fsWrite, hq]
        · simp [hr, hl]

/-- The writes of a poll step are either empty or the item's own path. -/
lemma pollStep_writes_shape (now : Nat) (st : StateFiles) (fs : Fs) (it : RemoteObs) :
    (pollStep now st fs it).2.2.1 = [] ∨ (pollStep now st fs it).2.2.1 = [it.path] := by
  unfold pollStep
  rcases st it.path with _ | e
  · simp
  · by_cases hr : e.remoteHash = hashContentStr it.markdown
    · simp [hr]
    · rcases fs it.path with _ | lc
      · simp [hr]
      · by_cases hl : hashContentStr lc = e.localHash
        · simp [hr, hl]
        · simp [hr, hl]

/-- The conflicts of a poll step are either empty or the item's own path. -/
lemma pollStep_conflicts_shape (now : Nat) (st : StateFiles) (fs : Fs) (it : RemoteObs) :
    (pollStep now st fs it).2.2.2 = [] ∨ (pollStep now st fs it).2.2.2 = [it.path] := by
  unfold pollStep
  rcases st it.path with _ | e
  · simp
  · by_cases hr : e.remoteHash = hashContentStr it.markdown
    · simp [hr]
    · rcases fs it.path with _ | lc
      · simp [hr]
      · by_cases hl : hashContentStr lc = e.localHash
        · simp [hr, hl]
        · simp [hr, hl]

/-- A poll cycle leaves state and filesystem untouched at any path that no
observed item targets. -/
lemma pollWordPress_path_ne (now : Nat) (items : List RemoteObs) (st : StateFiles)
    (fs : Fs) (q : String) (hq : ∀ it ∈ items, it.path ≠ q) :
    (pollWordPress now items st fs).1 q = st q
    ∧ (pollWordPress now items st fs).2.1 q = fs q := by
  induction items generalizing st fs with
  | nil => exact ⟨rfl, rfl⟩
  | cons i rest ih =>
    have hi : q ≠ i.path := fun h => hq i (by simp) h.symm
    have hstep := pollStep_path_ne now st fs i q hi
    have hrest := ih (pollStep now st fs i).1 (pollStep now st fs i).2.1
      (fun it hit => hq it (by simp [hit]))
    simp only [pollWordPress]
    exact ⟨hrest.1.trans hstep.1, hrest.2.trans hstep.2⟩

/-- Every path a poll cycle writes is the path of some observed item. -/
lemma pollWordPress_writes_mem (now : Nat) (items : List RemoteObs) (st : StateFiles)
    (fs : Fs) (q : String) (hq : q ∈ (pollWordPress now items st fs).2.2.1) :
    ∃ it ∈ items, it.path = q := by
  induction items generalizing st fs with
  | nil => simp [pollWordPress] at hq
  | cons i rest ih =>
    simp only [pollWordPress, List.mem_append] at hq
    rcases hq with hq | hq
    · rcases pollStep_writes_shape now st fs i with h | h
      · rw [h] at hq; simp at hq
      · rw [h] at hq
        simp at hq
        exact ⟨i, by simp, hq.symm⟩
    · obtain ⟨it, hit, hp⟩ := ih (pollStep now st fs i).1 (pollStep now st fs i).2.1 hq
      exact ⟨it, by simp [hit], hp⟩

/-- Every path a poll cycle reports as a conflict is the path of some
observed item. -/
lemma pollWordPress_conflicts_mem (now : Nat) (items : List RemoteObs) (st : StateFiles)
    (fs : Fs) (q : String) (hq : q ∈ (pollWordPress now items st fs).2.2.2) :
    ∃ it ∈ items, it.path = q := by
  induction items generalizing st fs with
  | nil => simp [pollWordPress] at hq
  | cons i rest ih =>
    simp only [pollWordPress, List.mem_append] at hq
    rcases hq with hq | hq
    · rcases pollStep_conflicts_shape now st fs i with h | h
      · rw [h] at hq; simp at hq
      · rw [h] at hq
        simp at hq
        exact ⟨i, by simp, hq.symm⟩
    · obtain ⟨it, hit, hp⟩ := ih (pollStep now st fs i).1 (pollStep now st fs i).2.1 hq
      exact ⟨it, by simp [hit], hp⟩

/-- Core lemma for the conflict claim: when the only observed item for path
`p` is in the both-sides-changed situation, one poll cycle leaves the state
entry and the local file for `p` untouched, writes nothing to `p`, and
reports exactly one conflict for `p`. -/
lemma pollWordPress_conflict_cycle (now : Nat) (items : List RemoteObs)
    (st : StateFiles) (fs : Fs) (p : String) (it : RemoteObs) (e : TrackedEntry)
    (lc : String)
    (hfilter : items.filter (fun i => i.path == p) = [it])
    (hentry : st p = some e)
    (hremote : ¬ e.remoteHash = hashContentStr it.markdown)
    (hlocal : fs p = some lc)
    (hdiff : ¬ hashContentStr lc = e.localHash) :
    (pollWordPress now items st fs).1 p = st p
    ∧ (pollWordPress now items st fs).2.1 p = fs p
    ∧ p ∉ (pollWordPress now items st fs).2.2.1
    ∧ (pollWordPress now items st fs).2.2.2.count p = 1 := by
  induction items generalizing st fs with
  | nil => simp at hfilter
  | cons i rest ih =>
    by_cases hip : i.path = p
    · -- the head is the observation for p
      have hfc : (i :: rest).filter (fun i => i.path == p)
          = i :: rest.filter (fun i => i.path == p) := by
        simp [List.filter_cons, hip]
      rw [hfc] at hfilter
      have hie : i = it := (List.cons_eq_cons.mp hfilter).1
      have hrest0 : rest.filter (fun i => i.path == p) = [] :=
        (List.cons_eq_cons.mp hfilter).2
      have hrestne : ∀ j ∈ rest, j.path ≠ p := by
        intro j hj
        have := List.filter_eq_nil_iff.mp hrest0 j hj
        simpa using this
      have hstep : pollStep now st fs i = (st, fs, [], [p]) := by
        have h1 : st i.path = some e := by rw [hip]; exact hentry
        have h2 : fs i.path = some lc := by rw [hip]; exact hlocal
        have := pollStep_conflict now st fs i e lc h1 (by rw [hie]; exact hremote) h2 hdiff
        rw [this, hip]
      have hpres := pollWordPress_path_ne now rest st fs p hrestne
      have hw : ∀ q ∈ (pollWordPress now rest st fs).2.2.1, q ≠ p := by
        intro q hq hqp
        obtain ⟨j, hj, hjp⟩ := pollWordPress_writes_mem now rest st fs q hq
        exact hrestne j hj (hjp.trans hqp)
      have hc : (pollWordPress now rest st fs).2.2.2.count p = 0 := by
        rw [List.count_eq_zero]
        intro hq
        obtain ⟨j, hj, hjp⟩ := pollWordPress_conflicts_mem now rest st fs p hq
        exact hrestne j hj hjp
      simp only [pollWordPress, hstep]
      refine ⟨hpres.1, hpres.2, ?_, ?_⟩
      · intro hq
        rw [List.mem_append] at hq
        rcases hq with hq | hq
        · simp at hq
        · exact hw p hq rfl
      · rw [List.count_append, hc]
        simp
    · -- the head is some other path
      have hfc : (i :: rest).filter (fun i => i.path == p)
          = rest.filter (fun i => i.path == p) := by
        simp [List.filter_cons, hip]
      rw [hfc] at hfilter
      have hstep := pollStep_path_ne now st fs i p (fun h => hip h.symm)
      have hih := ih (pollStep now st fs i).1 (pollStep now st fs i).2.1
        hfilter (hstep.1.trans hentry) (hstep.2.trans hlocal)
      simp only [pollWordPress]
      refine ⟨hih.1.trans hstep.1, hih.2.1.trans hstep.2, ?_, ?_⟩
      · intro hq
        rw [List.mem_append] at hq
        rcases hq with hq | hq
        · rcases pollStep_writes_shape now st fs i with h | h
          · rw [h] at hq; simp at hq
          · rw [h] at hq; simp at hq; exact hip hq.symm
        · exact hih.2.2.1 hq
      · rw [List.count_append, hih.2.2.2]
        rcases pollStep_conflicts_shape now st fs i with h | h
        · rw [h]; simp
        · rw [h, List.count_cons]
          simp [hip]

/-- A path is stable for an observed item when either nothing changed
remotely since the stored fingerprint, or the item is in the conflict
situation (remote changed, local digest differs): in both cases the next
poll step leaves everything unchanged. -/
def StablePath (st : StateFiles) (fs : Fs) (it : RemoteObs) : Prop :=
  ∃ e, st it.path = some e ∧
    (e.remoteHash = hashContentStr it.markdown ∨
      (¬ e.remoteHash = hashContentStr it.markdown ∧
        ∃ lc, fs it.path = some lc ∧ ¬ hashContentStr lc = e.localHash))

/-- After a poll step processes an item, that item's path is stable. -/
lemma pollStep_stable_self (now : Nat) (st : StateFiles) (fs : Fs) (it : RemoteObs) :
    StablePath (pollStep now st fs it).1 (pollStep now st fs it).2.1 it := by
  rcases hst : st it.path with _ | e
  · refine ⟨⟨it.id, it.typ, hashContentStr it.markdown, hashContentStr it.markdown, now⟩,
      ?_, Or.inl rfl⟩
    simp [pollStep, hst, updateFiles]
  · by_cases hr : e.remoteHash = hashContentStr it.markdown
    · refine ⟨e, ?_, Or.inl hr⟩
      simp [pollStep, hst, hr]
    · rcases hfs : fs it.path with _ | lc
      · refine ⟨⟨it.id, it.typ, hashContentStr it.markdown, hashContentStr it.markdown, now⟩,
          ?_, Or.inl rfl⟩
        simp [pollStep, hst, hr, hfs, updateFiles]
      · by_cases hl : hashContentStr lc = e.localHash
        · refine ⟨⟨e.id, e.typ, hashContentStr it.markdown, hashContentStr it.markdown, now⟩,
            ?_, Or.inl rfl⟩
          simp [pollStep, hst, hr, hfs, hl, updateFiles]
        · have hcf := pollStep_conflict now st fs it e lc hst hr hfs hl
          rw [hcf]
          exact ⟨e, hst, Or.inr ⟨hr, lc, hfs, hl⟩⟩

/-- A poll step on a stable path takes no action: same state, same files,
no write. -/
lemma pollStep_of_stable (now : Nat) (st : StateFiles) (fs : Fs) (it : RemoteObs)
    (h : StablePath st fs it) :
    (pollStep now st fs it).1 = st ∧ (pollStep now st fs it).2.1 = fs
    ∧ (pollStep now st fs it).2.2.1 = [] := by
  obtain ⟨e, he, hcase⟩ := h
  rcases hcase with hr | ⟨hr, lc, hlc, hl⟩
  · rw [pollStep_ignore now st fs it e he hr]
    exact ⟨rfl, rfl, rfl⟩
  · rw [pollStep_conflict now st fs it e lc he hr hlc hl]
    exact ⟨rfl, rfl, rfl⟩

/-- Stability of a path depends only on the state entry and the file at
that path. -/
lemma StablePath.transport {st st2 : StateFiles} {fs fs2 : Fs} {it : RemoteObs}
    (h : StablePath st fs it) (hst : st2 it.path = st it.path)
    (hfs : fs2 it.path = fs it.path) : StablePath st2 fs2 it := by
  obtain ⟨e, he, hcase⟩ := h
  refine ⟨e, hst.trans he, ?_⟩
  rcases hcase with hr | ⟨hr, lc, hlc, hl⟩
  · exact Or.inl hr
  · exact Or.inr ⟨hr, lc, hfs.trans hlc, hl⟩

/-- After one poll cycle over observations with pairwise distinct paths,
every observed path is stable. -/
lemma pollWordPress_stable_all (now : Nat) (items : List RemoteObs)
    (st : StateFiles) (fs : Fs) (hnd : (items.map RemoteObs.path).Nodup) :
    ∀ it ∈ items,
      StablePath (pollWordPress now items st fs).1 (pollWordPress now items st fs).2.1 it := by
  induction items generalizing st fs with
  | nil => intro it hit; simp at hit
  | cons i rest ih =>
    rw [List.map_cons, List.nodup_cons] at hnd
    intro it hit
    simp only [pollWordPress]
    rcases List.mem_cons.mp hit with hii | hitr
    · subst hii
      have hrestne : ∀ j ∈ rest, j.path ≠ it.path := by
        intro j hj hjp
        exact hnd.1 (hjp ▸ List.mem_map_of_mem RemoteObs.path hj)
      have hpres := pollWordPress_path_ne now rest
        (pollStep now st fs it).1 (pollStep now st fs it).2.1 it.path hrestne
      exact (pollStep_stable_self now st fs it).transport hpres.1 hpres.2
    · exact ih (pollStep now st fs i).1 (pollStep now st fs i).2.1 hnd.2 it hitr

/-- A poll cycle over observations that are all stable performs no state
mutation and no file write. -/
lemma pollWordPress_of_stable (now : Nat) (items : List RemoteObs)
    (st : StateFiles) (fs : Fs) (hall : ∀ it ∈ items, StablePath st fs it) :
    (pollWordPress now items st fs).1 = st
    ∧ (pollWordPress now items st fs).2.1 = fs
    ∧ (pollWordPress now items st fs).2.2.1 = [] := by
  induction items with
  | nil => exact ⟨rfl, rfl, rfl⟩
  | cons i rest ih =>
    have hstep := pollStep_of_stable now st fs i (hall i (by simp))
    have hrest := ih (fun it hit => hall it (by simp [hit]))
    simp only [pollWordPress, hstep.1, hstep.2.1, hstep.2.2]
    exact ⟨hrest.1, hrest.2.1, by simp [hrest.2.2]⟩

/-! ### Codec lemmas -/

/-- Splitting at the closing delimiter finds exactly the delimiter appended
after a delimiter-free frontmatter text: the junction cannot create an
earlier occurrence because the delimiter's only newline is its first
character. -/
lemma splitAtDelim_append (y body : List Char) (hy : containsDelim y = false) :
    splitAtDelim (y ++ '\n' :: '-' :: '-' :: '-' :: body) = some (y, body) := by
  induction y with
  | nil =>
    simp [splitAtDelim, List.isPrefixOf]
  | cons c y ih =>
    have hy2 : containsDelim y = false := by
      unfold containsDelim at hy
      exact (Bool.or_eq_false_iff.mp hy).2
    have hpre : (['\n', '-', '-', '-'].isPrefixOf (c :: y)) = false := by
      unfold containsDelim at hy
      exact (Bool.or_eq_false_iff.mp hy).1
    have hcond : (['\n', '-', '-', '-'].isPrefixOf
        (c :: (y ++ '\n' :: '-' :: '-' :: '-' :: body))) = false := by
      rcases y with _ | ⟨d, y⟩
      · simp [List.isPrefixOf]
      rcases y with _ | ⟨e, y⟩
      · simp [List.isPrefixOf]
      rcases y with _ | ⟨f, y⟩
      · simp [List.isPrefixOf]
      · simpa [List.isPrefixOf] using hpre
    show splitAtDelim (c :: (y ++ '\n' :: '-' :: '-' :: '-' :: body)) = _
    unfold splitAtDelim
    rw [hcond]
    simp only [Bool.false_eq_true, if_false, ih hy2]

/-- The frontmatter split inverts the document layout produced by
`wpToMarkdown`: for a delimiter-free frontmatter text `y`,
`"---\n" + y + "\n---\n" + body` parses back to `(y, body)`. -/
lemma parseFrontmatter_roundtrip (y body : String) (hy : containsDelim y.data = false) :
    parseFrontmatter ("---\n" ++ y ++ "\n---\n" ++ body) = some (y, body) := by
  have h1 : ("---\n" : String).data = ['-', '-', '-', '\n'] := rfl
  have h2 : ("\n---\n" : String).data = ['\n', '-', '-', '-', '\n'] := rfl
  have hdata : ("---\n" ++ y ++ "\n---\n" ++ body).data
      = '-' :: '-' :: '-' :: '\n'
        :: (y.data ++ '\n' :: '-' :: '-' :: '-' :: ('\n' :: body.data)) := by
    simp [String.data_append, h1, h2]
  unfold parseFrontmatter parseFrontmatterL
  rw [hdata]
  have hpre : (['-', '-', '-', '\n'].isPrefixOf
      ('-' :: '-' :: '-' :: '\n'
        :: (y.data ++ '\n' :: '-' :: '-' :: '-' :: ('\n' :: body.data)))) = true := by
    simp [List.isPrefixOf]
  rw [hpre]
  simp only [if_true, List.drop_succ_cons, List.drop_zero]
  rw [splitAtDelim_append y.data ('\n' :: body.data) hy]
  rfl

/-! ### Concrete instances used by witnesses and counterexamples -/

/-- The empty tracked-files map. -/
def stEmpty : StateFiles := fun _ => none

/-- The empty local filesystem. -/
def fsEmpty : Fs := fun _ => none

/-- A remote observation for path `a` whose rendered markdown is `M`. -/
def obsM : RemoteObs := ⟨"a", 1, "post", "M"⟩

/-- A tracked entry whose stored digests match neither the observed remote
digest of `obsM` nor the current local file of `fsConflict`. -/
def entryConflict : TrackedEntry := ⟨1, "post", hashContentStr "L0", "zz", 0⟩

/-- State tracking path `a` with `entryConflict`. -/
def stConflict : StateFiles := fun q => if q = "a" then some entryConflict else none

/-- Filesystem where the local file at `a` was edited (digest differs from
the stored `localHash`). -/
def fsConflict : Fs := fun q => if q = "a" then some "X" else none

/-- Filesystem where the local file at `a` was reverted to content whose
digest equals the stored `localHash` of `entryConflict`. -/
def fsReverted : Fs := fun q => if q = "a" then some "L0" else none

/-- A tracked entry whose stored `remoteHash` equals the observed digest of
`obsM`: nothing changed remotely. -/
def entryClean : TrackedEntry := ⟨1, "post", "x", hashContentStr "M", 0⟩

/-- State tracking path `a` with `entryClean`. -/
def stClean : StateFiles := fun q => if q = "a" then some entryClean else none

/-- A concrete stand-in for `YAML.parse`: frontmatter text `j` carries
`id: 5`, anything else carries no id. -/
def parseYamlT : String → Frontmatter :=
  fun s => if s = "j" then ⟨some 5, "post", "t", "s", "draft"⟩
    else ⟨none, "post", "t", "s", "draft"⟩

/-- A tracked entry with remote id 5. -/
def entryId5 : TrackedEntry := ⟨5, "post", "x", "y", 0⟩

/-- State tracking path `p` with `entryId5`. -/
def stTracked5 : StateFiles := fun q => if q = "p" then some entryId5 else none

/-- A markdown file whose frontmatter has no id. -/
def contentNoId : String := "---\nk\n---\nbody"

/-- A markdown file whose frontmatter has id 5 (under `parseYamlT`). -/
def contentWithId : String := "---\nj\n---\nbody"

/-- A filesystem whose state file for site `d` holds the previous state. -/
def fsOldState : Fs := fun q => if q = stateFilePath "d" then some "OLD" else none

/-- A concrete remote item with raw body `hello`. -/
def itemHello : WpItem := ⟨7, "s", "draft", "t", some "hello", none⟩

/-- A concrete stand-in for `YAML.parse` inverting `stringifyYamlConst`
on `itemHello`'s frontmatter. -/
def parseYamlConst : String → Frontmatter := fun _ => buildFrontmatter itemHello "post"

/-- A concrete stand-in for `YAML.stringify` with delimiter-free output. -/
def stringifyYamlConst : Frontmatter → String := fun _ => "k"

/-! ### Claims -/

/-- Claim C7 (amended): the digest is deterministic and pure — it depends
only on the character codes of the input — but its output is not fixed
width: the hex rendering of the 32-bit hash has no padding, so the width
varies with the input. -/
theorem digest_deterministic_variable_width :
    (∀ s t : String, s.data = t.data → hashContentStr s = hashContentStr t)
    ∧ (hashContentStr "").length ≠ (hashContentStr "a").length := by
  constructor
  · intro s t h
    unfold hashContentStr
    rw [h]
  · decide

/-- Claim C7 counterexample: the digest is not a fixed-width identifier:
`digest("")` is the one-character string `0` while `digest("a")` is the
two-character string `61`, so not all outputs have the same width. -/
theorem digest_fixed_width_counterexample :
    (hashContentStr "").length = 1 ∧ (hashContentStr "a").length = 2
    ∧ ¬ (∀ s t : String, (hashContentStr s).length = (hashContentStr t).length) := by
  refine ⟨by decide, by decide, fun hall => absurd (hall "" "a") (by decide)⟩

/-- Claim C7 witness: the determinism part applied at a concrete input. -/
theorem digest_deterministic_variable_width_witness :
    ("a" : String).data = ("a" : String).data
    ∧ hashContentStr "a" = hashContentStr "a" :=
  ⟨rfl, digest_deterministic_variable_width.1 "a" "a" rfl⟩

/-- Claim C8 (amended): `saveState` performs a single direct write of the
serialized state to the state file path — no temporary file, no rename —
and a write that fails partway (here: after 0 bytes) leaves a partial
state file regardless of what the previous state was. -/
theorem saveState_direct_write_amended (dir payload : String) :
    saveStateOps dir payload = [FsOp.write (stateFilePath dir) payload]
    ∧ ∀ fs : Fs, crashDuring fs (saveStateOps dir payload) 0 0 (stateFilePath dir) = some "" := by
  refine ⟨rfl, fun fs => ?_⟩
  simp [crashDuring, saveStateOps]

/-- Claim C8 counterexample: saving is not crash-tolerant.  With previous
state `OLD` persisted for site `d`, writing new payload `NEW` and crashing
after one byte leaves the state file holding `N` — neither the previous
valid state nor the new one. -/
theorem saveState_crash_counterexample :
    crashDuring fsOldState (saveStateOps "d" "NEW") 0 1 (stateFilePath "d") = some "N"
    ∧ crashDuring fsOldState (saveStateOps "d" "NEW") 0 1 (stateFilePath "d")
        ≠ fsOldState (stateFilePath "d")
    ∧ crashDuring fsOldState (saveStateOps "d" "NEW") 0 1 (stateFilePath "d")
        ≠ some "NEW" := by
  refine ⟨by decide, by decide, by decide⟩

/-- Claim C9: when no prior persisted state exists (the read of the state
file fails), `loadState` never fails and returns the empty state
`{ files: {}, lastSync: null }`, for every JSON parser. -/
theorem loadState_missing_gives_empty_state :
    ∀ parseJson : String → Option SyncState,
      loadState none parseJson = ⟨fun _ => none, none⟩ :=
  fun _ => rfl

/-- Claim C1: for a tracked path whose observed remote digest differs from
the stored `remoteHash` and whose observed local digest differs from the
stored `localHash`, one poll cycle performs no write to the local file, no
mutation of that path's state entry, and reports exactly one conflict for
that path; and since the entry is left identical, a second poll over the
same observations reports the same conflict again. -/
theorem poll_conflict_correctness
    (now now2 : Nat) (items : List RemoteObs) (st : StateFiles) (fs : Fs)
    (p : String) (it : RemoteObs) (e : TrackedEntry) (lc : String)
    (hfilter : items.filter (fun i => i.path == p) = [it])
    (hentry : st p = some e)
    (hremote : ¬ e.remoteHash = hashContentStr it.markdown)
    (hlocal : fs p = some lc)
    (hdiff : ¬ hashContentStr lc = e.localHash) :
    (pollWordPress now items st fs).1 p = st p
    ∧ (pollWordPress now items st fs).2.1 p = fs p
    ∧ p ∉ (pollWordPress now items st fs).2.2.1
    ∧ (pollWordPress now items st fs).2.2.2.count p = 1
    ∧ (pollWordPress now2 items (pollWordPress now items st fs).1
        (pollWordPress now items st fs).2.1).2.2.2.count p = 1 := by
  have h1 := pollWordPress_conflict_cycle now items st fs p it e lc
    hfilter hentry hremote hlocal hdiff
  have h2 := pollWordPress_conflict_cycle now2 items (pollWordPress now items st fs).1
    (pollWordPress now items st fs).2.1 p it e lc
    hfilter (h1.1.trans hentry) hremote (h1.2.1.trans hlocal) hdiff
  exact ⟨h1.1, h1.2.1, h1.2.2.1, h1.2.2.2, h2.2.2.2⟩

/-- Claim C1 witness: the conflict situation at the concrete instance
`obsM` / `stConflict` / `fsConflict`. -/
theorem poll_conflict_correctness_witness :
    ([obsM].filter (fun i => i.path == "a") = [obsM])
    ∧ stConflict "a" = some entryConflict
    ∧ (¬ entryConflict.remoteHash = hashContentStr obsM.markdown)
    ∧ fsConflict "a" = some "X"
    ∧ (¬ hashContentStr "X" = entryConflict.localHash)
    ∧ ((pollWordPress 2 [obsM] stConflict fsConflict).1 "a" = stConflict "a"
      ∧ (pollWordPress 2 [obsM] stConflict fsConflict).2.1 "a" = fsConflict "a"
      ∧ "a" ∉ (pollWordPress 2 [obsM] stConflict fsConflict).2.2.1
      ∧ (pollWordPress 2 [obsM] stConflict fsConflict).2.2.2.count "a" = 1
      ∧ (pollWordPress 3 [obsM] (pollWordPress 2 [obsM] stConflict fsConflict).1
          (pollWordPress 2 [obsM] stConflict fsConflict).2.1).2.2.2.count "a" = 1) :=
  ⟨by decide, by decide, by decide, by decide, by decide,
    poll_conflict_correctness 2 3 [obsM] stConflict fsConflict "a" obsM entryConflict "X"
      (by decide) (by decide) (by decide) (by decide) (by decide)⟩

/-- Claim C3 (amended): a poll takes no action for a tracked path whose
observed remote digest equals the stored `remoteHash`; and polling twice
with the same remote observations, pairwise-distinct observed paths, and
no local file change between the polls performs zero file writes and zero
state mutations on the second poll.  (The no-local-change and
distinct-path conditions are required; see the counterexample.) -/
theorem poll_idempotence_amended :
    (∀ (now : Nat) (st : StateFiles) (fs : Fs) (it : RemoteObs) (e : TrackedEntry),
      st it.path = some e → e.remoteHash = hashContentStr it.markdown →
      pollStep now st fs it = (st, fs, [], []))
    ∧ (∀ (now now2 : Nat) (items : List RemoteObs) (st : StateFiles) (fs : Fs),
      (items.map RemoteObs.path).Nodup →
      (pollWordPress now2 items (pollWordPress now items st fs).1
          (pollWordPress now items st fs).2.1).1
        = (pollWordPress now items st fs).1
      ∧ (pollWordPress now2 items (pollWordPress now items st fs).1
          (pollWordPress now items st fs).2.1).2.1
        = (pollWordPress now items st fs).2.1
      ∧ (pollWordPress now2 items (pollWordPress now items st fs).1
          (pollWordPress now items st fs).2.1).2.2.1 = []) := by
  constructor
  · intro now st fs it e hentry hremote
    exact pollStep_ignore now st fs it e hentry hremote
  · intro now now2 items st fs hnd
    exact pollWordPress_of_stable now2 items _ _
      (pollWordPress_stable_all now items st fs hnd)

/-- Claim C3 counterexample: polling twice with no remote change between
the polls can still write on the second poll.  First poll: `obsM` against
`stConflict` / `fsConflict` is a conflict (no write).  Between the polls
the local file alone is reverted (`fsReverted`) so that its digest matches
the stored `localHash`; the second poll over the identical remote
observations then performs a file write to `a`. -/
theorem poll_idempotence_counterexample :
    (pollWordPress 0 [obsM] stConflict fsConflict).2.2.1 = []
    ∧ (pollWordPress 0 [obsM] stConflict fsConflict).2.2.2 = ["a"]
    ∧ (pollWordPress 1 [obsM] (pollWordPress 0 [obsM] stConflict fsConflict).1
        fsReverted).2.2.1 = ["a"] := by
  refine ⟨by decide, by decide, by decide⟩

/-- Claim C3 witness: both parts of the amended idempotence at concrete
inputs: an unchanged remote observation is ignored, and a second poll over
the same observations and unchanged files does nothing. -/
theorem poll_idempotence_amended_witness :
    (stClean "a" = some entryClean
      ∧ entryClean.remoteHash = hashContentStr obsM.markdown
      ∧ pollStep 5 stClean fsEmpty obsM = (stClean, fsEmpty, [], []))
    ∧ (([obsM].map RemoteObs.path).Nodup
      ∧ ((pollWordPress 1 [obsM] (pollWordPress 0 [obsM] stEmpty fsEmpty).1
            (pollWordPress 0 [obsM] stEmpty fsEmpty).2.1).1
          = (pollWordPress 0 [obsM] stEmpty fsEmpty).1
        ∧ (pollWordPress 1 [obsM] (pollWordPress 0 [obsM] stEmpty fsEmpty).1
            (pollWordPress 0 [obsM] stEmpty fsEmpty).2.1).2.1
          = (pollWordPress 0 [obsM] stEmpty fsEmpty).2.1
        ∧ (pollWordPress 1 [obsM] (pollWordPress 0 [obsM] stEmpty fsEmpty).1
            (pollWordPress 0 [obsM] stEmpty fsEmpty).2.1).2.2.1 = [])) :=
  ⟨⟨by decide, by decide,
      poll_idempotence_amended.1 5 stClean fsEmpty obsM entryClean (by decide) (by decide)⟩,
    ⟨by decide, poll_idempotence_amended.2 0 1 [obsM] stEmpty fsEmpty (by decide)⟩⟩

/-- Claim C2: immediately after any successful sync operation — a push
through the watcher (create or update path), a pull through the pull
command, or a pull performed by the poll — the recorded entry for the path
satisfies `localHash = remoteHash`, both equal to the digest of the content
just synchronized. -/
theorem sync_sets_digest_parity :
    (∀ (parseYaml : String → Frontmatter) (now createdId : Nat) (wf : List String)
        (st : StateFiles) (fp rp content : String) (parsed : ParsedWp),
      markdownToWp parseYaml content = some parsed →
      wf.contains fp = false →
      ∃ e, (handleLocalChange parseYaml now createdId wf st fp rp content).1 rp = some e
        ∧ e.localHash = e.remoteHash ∧ e.localHash = hashContentStr content)
    ∧ (∀ (now : Nat) (force : Bool) (st : StateFiles) (it : RemoteObs),
      (pullItem now force st it).2 ≠ [] →
      ∃ e, (pullItem now force st it).1 it.path = some e
        ∧ e.localHash = e.remoteHash ∧ e.localHash = hashContentStr it.markdown)
    ∧ (∀ (now : Nat) (st : StateFiles) (fs : Fs) (it : RemoteObs),
      (pollStep now st fs it).2.2.1 ≠ [] →
      ∃ e, (pollStep now st fs it).1 it.path = some e
        ∧ e.localHash = e.remoteHash ∧ e.localHash = hashContentStr it.markdown) := by
  refine ⟨?_, ?_, ?_⟩
  · intro parseYaml now createdId wf st fp rp content parsed hparse hwf
    rcases parsed with ⟨pid, ptyp, pdata⟩
    have hmem : fp ∉ wf := by simpa using hwf
    rcases pid with _ | i
    · refine ⟨⟨createdId, ptyp, hashContentStr content, hashContentStr content, now⟩,
        ?_, rfl, rfl⟩
      simp [handleLocalChange, hwf, hmem, hparse, updateFiles]
    · refine ⟨⟨i, ptyp, hashContentStr content, hashContentStr content, now⟩,
        ?_, rfl, rfl⟩
      simp [handleLocalChange, hwf, hmem, hparse, updateFiles]
  · intro now force st it hne
    rcases hst : st it.path with _ | e
    · refine ⟨⟨it.id, it.typ, hashContentStr it.markdown, hashContentStr it.markdown, now⟩,
        ?_, rfl, rfl⟩
      simp [pullItem, hst, updateFiles]
    · by_cases hr : e.remoteHash = hashContentStr it.markdown
      · cases force with
        | false => exact absurd (by simp [pullItem, hst, hr]) hne
        | true =>
          refine ⟨⟨it.id, it.typ, hashContentStr it.markdown, hashContentStr it.markdown, now⟩,
            ?_, rfl, rfl⟩
          simp [pullItem, hst, hr, updateFiles]
      · refine ⟨⟨it.id, it.typ, hashContentStr it.markdown, hashContentStr it.markdown, now⟩,
          ?_, rfl, rfl⟩
        simp [pullItem, hst, hr, updateFiles]
  · intro now st fs it hne
    rcases hst : st it.path with _ | e
    · refine ⟨⟨it.id, it.typ, hashContentStr it.markdown, hashContentStr it.markdown, now⟩,
        ?_, rfl, rfl⟩
      simp [pollStep, hst, updateFiles]
    · by_cases hr : e.remoteHash = hashContentStr it.markdown
      · exact absurd (by rw [pollStep_ignore now st fs it e hst hr]) hne
      · rcases hfs : fs it.path with _ | lc
        · refine ⟨⟨it.id, it.typ, hashContentStr it.markdown, hashContentStr it.markdown, now⟩,
            ?_, rfl, rfl⟩
          simp [pollStep, hst, hr, hfs, updateFiles]
        · by_cases hl : hashContentStr lc = e.localHash
          · refine ⟨⟨e.id, e.typ, hashContentStr it.markdown, hashContentStr it.markdown, now⟩,
              ?_, rfl, rfl⟩
            simp [pollStep, hst, hr, hfs, hl, updateFiles]
          · exact absurd (by rw [pollStep_conflict now st fs it e lc hst hr hfs hl]) hne

/-- Claim C2 witness: all three sync operations at concrete inputs: a push
of `contentNoId` (create path), a pull of `obsM` into empty state, and a
poll pull of `obsM` into empty state. -/
theorem sync_sets_digest_parity_witness :
    (markdownToWp parseYamlT contentNoId
        = some ⟨none, "post", ⟨"t", "s", "draft", "body"⟩⟩
      ∧ ([] : List String).contains "p" = false
      ∧ ∃ e, (handleLocalChange parseYamlT 0 9 [] stEmpty "p" "p" contentNoId).1 "p" = some e
        ∧ e.localHash = e.remoteHash ∧ e.localHash = hashContentStr contentNoId)
    ∧ ((pullItem 0 false stEmpty obsM).2 ≠ []
      ∧ ∃ e, (pullItem 0 false stEmpty obsM).1 obsM.path = some e
        ∧ e.localHash = e.remoteHash ∧ e.localHash = hashContentStr obsM.markdown)
    ∧ ((pollStep 0 stEmpty fsEmpty obsM).2.2.1 ≠ []
      ∧ ∃ e, (pollStep 0 stEmpty fsEmpty obsM).1 obsM.path = some e
        ∧ e.localHash = e.remoteHash ∧ e.localHash = hashContentStr obsM.markdown) :=
  ⟨⟨by decide, by decide,
      sync_sets_digest_parity.1 parseYamlT 0 9 [] stEmpty "p" "p" contentNoId
        ⟨none, "post", ⟨"t", "s", "draft", "body"⟩⟩ (by decide) (by decide)⟩,
    ⟨by decide, sync_sets_digest_parity.2.1 0 false stEmpty obsM (by decide)⟩,
    ⟨by decide, sync_sets_digest_parity.2.2 0 stEmpty fsEmpty obsM (by decide)⟩⟩

/-- Claim C4 (amended): the push decides between update and create using the
id parsed from the file's frontmatter, not the TrackedFile's stored
`remoteId`: when the parsed payload has an id, remote update is called with
that id and the decoded payload; otherwise remote create is called and the
identifier returned by create becomes the new `remoteId` recorded in state
for that path. -/
theorem push_id_decision_amended (parseYaml : String → Frontmatter)
    (now createdId : Nat) (wf : List String) (st : StateFiles)
    (fp rp content : String) (parsed : ParsedWp)
    (hparse : markdownToWp parseYaml content = some parsed)
    (hwf : wf.contains fp = false) :
    (∀ i, parsed.id = some i →
      (handleLocalChange parseYaml now createdId wf st fp rp content).2
          = [RemoteCall.update parsed.typ i parsed.data]
        ∧ (handleLocalChange parseYaml now createdId wf st fp rp content).1 rp
          = some ⟨i, parsed.typ, hashContentStr content, hashContentStr content, now⟩)
    ∧ (parsed.id = none →
      (handleLocalChange parseYaml now createdId wf st fp rp content).2
          = [RemoteCall.create parsed.typ parsed.data]
        ∧ (handleLocalChange parseYaml now createdId wf st fp rp content).1 rp
          = some ⟨createdId, parsed.typ, hashContentStr content, hashContentStr content, now⟩) := by
  have hmem : fp ∉ wf := by simpa using hwf
  constructor
  · intro i hi
    constructor
    · simp [handleLocalChange, hwf, hmem, hparse, hi]
    · simp [handleLocalChange, hwf, hmem, hparse, hi, updateFiles]
  · intro hn
    constructor
    · simp [handleLocalChange, hwf, hmem, hparse, hn]
    · simp [handleLocalChange, hwf, hmem, hparse, hn, updateFiles]

/-- Claim C4 counterexample: the claim as stated is false.  For path `p`
the TrackedFile `entryId5` has remote id 5, but the file's frontmatter has
no id, so the push issues a remote create, not an update with id 5. -/
theorem push_id_decision_counterexample :
    stTracked5 "p" = some entryId5
    ∧ entryId5.id = 5
    ∧ (handleLocalChange parseYamlT 0 9 [] stTracked5 "p" "p" contentNoId).2
        = [RemoteCall.create "post" ⟨"t", "s", "draft", "body"⟩]
    ∧ (handleLocalChange parseYamlT 0 9 [] stTracked5 "p" "p" contentNoId).2
        ≠ [RemoteCall.update "post" 5 ⟨"t", "s", "draft", "body"⟩] := by
  refine ⟨by decide, by decide, by decide, by decide⟩

/-- Claim C4 witness: the update branch at a concrete input whose
frontmatter carries id 5. -/
theorem push_id_decision_amended_witness :
    markdownToWp parseYamlT contentWithId
        = some ⟨some 5, "post", ⟨"t", "s", "draft", "body"⟩⟩
    ∧ ([] : List String).contains "p" = false
    ∧ (handleLocalChange parseYamlT 4 9 [] stTracked5 "p" "p" contentWithId).2
        = [RemoteCall.update "post" 5 ⟨"t", "s", "draft", "body"⟩]
    ∧ (handleLocalChange parseYamlT 4 9 [] stTracked5 "p" "p" contentWithId).1 "p"
        = some ⟨5, "post", hashContentStr contentWithId, hashContentStr contentWithId, 4⟩ :=
  ⟨by decide, by decide,
    ((push_id_decision_amended parseYamlT 4 9 [] stTracked5 "p" "p" contentWithId
        ⟨some 5, "post", ⟨"t", "s", "draft", "body"⟩⟩ (by decide) (by decide)).1 5 rfl).1,
    ((push_id_decision_amended parseYamlT 4 9 [] stTracked5 "p" "p" contentWithId
        ⟨some 5, "post", ⟨"t", "s", "draft", "body"⟩⟩ (by decide) (by decide)).1 5 rfl).2⟩

/-- Claim C5 (amended): an `add` event for a suppressed path is dropped at
arrival, and a pull-triggered write to path `P` never produces a
watcher-driven push for `P` within the suppression window: every push
attempt happens at a time at which the path is not suppressed, so it
cannot fall inside any suppression interval of `P`.  (A `change` event
arriving during the window is only checked when its debounce timer fires,
so it may still cause a push after the window; see the counterexample.) -/
theorem suppression_amended :
    (∀ (wf : List String) (st : StateFiles) (fp rp : String),
      wf.contains fp = true → onAdd wf st fp rp = AddOutcome.dropped)
    ∧ (∀ (pollWrites changes : List (String × Nat)) (d : Nat) (p : String) (tw tf : Nat),
      (p, tw) ∈ pollWrites → pushAttemptAt pollWrites changes d p tf = true →
      ¬ (tw ≤ tf ∧ tf < tw + 2000)) := by
  constructor
  · intro wf st fp rp h
    have hmem : fp ∈ wf := by simpa using h
    simp [onAdd, h, hmem]
  · intro pollWrites changes d p tw tf hmem hpush hin
    have hsup : suppressedAt pollWrites p tf = false := by
      unfold pushAttemptAt at hpush
      rw [Bool.and_eq_true] at hpush
      simpa using hpush.2
    have htrue : suppressedAt pollWrites p tf = true := by
      unfold suppressedAt
      rw [List.any_eq_true]
      exact ⟨(p, tw), hmem, by simp [hin.1, hin.2]⟩
    rw [htrue] at hsup
    exact absurd hsup (by simp)

/-- Claim C5 counterexample: a `change` event arriving for a suppressed path
is not dropped.  The poll writes `p` at time 0 (suppressed on `[0, 2000)`);
a change event arrives at 1500 — while `p` is suppressed — but with a
1000 ms debounce its timer fires at 2500, when the suppression has already
been lifted, so the handler proceeds to push. -/
theorem suppression_counterexample :
    suppressedAt [("p", 0)] "p" 1500 = true
    ∧ pushAttemptAt [("p", 0)] [("p", 1500)] 1000 "p" 2500 = true := by
  refine ⟨by decide, by decide⟩

/-- Claim C5 witness: both parts at concrete inputs: a suppressed `add`
event is dropped, and a concrete push attempt lies outside the suppression
window of the poll write it follows. -/
theorem suppression_amended_witness :
    (["x"].contains "x" = true
      ∧ onAdd ["x"] stEmpty "x" "x" = AddOutcome.dropped)
    ∧ ((("p", 0) ∈ [(("p" : String), 0)])
      ∧ pushAttemptAt [("p", 0)] [("p", 1500)] 1000 "p" 2500 = true
      ∧ ¬ (0 ≤ 2500 ∧ 2500 < 0 + 2000)) :=
  ⟨⟨by decide, suppression_amended.1 ["x"] stEmpty "x" "x" (by decide)⟩,
    ⟨by decide, by decide,
      suppression_amended.2 [("p", 0)] [("p", 1500)] 1000 "p" 0 2500 (by decide) (by decide)⟩⟩

/-- Claim C6: a watcher `add` event for a path with no TrackedFile entry in
state never issues a remote create or update (no auto-push); when the path
is not suppressed the handler reports the advisory and takes no sync
action. -/
theorem untracked_add_no_push (parseYaml : String → Frontmatter)
    (now createdId : Nat) (wf : List String) (st : StateFiles)
    (fp rp content : String)
    (huntracked : st rp = none) :
    addEventRemoteCalls parseYaml now createdId wf st fp rp content = []
    ∧ (wf.contains fp = false → onAdd wf st fp rp = AddOutcome.advisory) := by
  have honadd : onAdd wf st fp rp = AddOutcome.dropped
      ∨ onAdd wf st fp rp = AddOutcome.advisory := by
    unfold onAdd
    by_cases hc : wf.contains fp = true
    · left
      have hmem : fp ∈ wf := by simpa using hc
      simp [hc, hmem]
    · right
      have hmem : fp ∉ wf := by simpa using Bool.of_not_eq_true hc
      simp [hmem, huntracked]
  constructor
  · unfold addEventRemoteCalls
    rcases honadd with h | h <;> rw [h]
  · intro hwf
    have hmem : fp ∉ wf := by simpa using hwf
    unfold onAdd
    simp [hmem, huntracked]

/-- Claim C6 witness: an `add` event for an untracked path at a concrete
input: no remote call, advisory outcome. -/
theorem untracked_add_no_push_witness :
    stEmpty "r" = none
    ∧ addEventRemoteCalls parseYamlT 0 9 [] stEmpty "r" "r" contentNoId = []
    ∧ (([] : List String).contains "r" = false →
        onAdd [] stEmpty "r" "r" = AddOutcome.advisory) :=
  ⟨rfl,
    (untracked_add_no_push parseYamlT 0 9 [] stEmpty "r" "r" contentNoId rfl).1,
    (untracked_add_no_push parseYamlT 0 9 [] stEmpty "r" "r" contentNoId rfl).2⟩

/-- Claim C10: codec round trip.  For any YAML serializer/parser pair that
inverts on the item's frontmatter and whose serialized text contains no
closing delimiter, parsing the markdown produced by `wpToMarkdown` with
`markdownToWp` recovers the item's id, the given content type, and the
item's body content unchanged (the raw body when present), provided the
body does not itself begin with a frontmatter delimiter line. -/
theorem codec_roundtrip_recovers_id_type_body
    (stringifyYaml : Frontmatter → String) (parseYaml : String → Frontmatter)
    (item : WpItem) (ct : String)
    (hyaml : parseYaml (jsTrim (stringifyYaml (buildFrontmatter item ct)))
        = buildFrontmatter item ct)
    (hclean : containsDelim (jsTrim (stringifyYaml (buildFrontmatter item ct))).data = false)
    (_hbody : (['-', '-', '-'].isPrefixOf (resolveContent item).data) = false) :
    ∃ parsed, markdownToWp parseYaml (wpToMarkdown stringifyYaml item ct) = some parsed
      ∧ parsed.id = some item.id ∧ parsed.typ = ct
      ∧ parsed.data.content = resolveContent item := by
  have hsplit := parseFrontmatter_roundtrip
    (jsTrim (stringifyYaml (buildFrontmatter item ct))) (resolveContent item) hclean
  refine ⟨⟨some item.id, ct,
    ⟨(buildFrontmatter item ct).title, (buildFrontmatter item ct).slug,
      (buildFrontmatter item ct).status, resolveContent item⟩⟩, ?_, rfl, rfl, rfl⟩
  have hyaml2 : parseYaml (jsTrim (stringifyYaml
        ⟨some item.id, ct, item.title, item.slug, item.status⟩))
      = ⟨some item.id, ct, item.title, item.slug, item.status⟩ := by
    simpa [buildFrontmatter] using hyaml
  unfold wpToMarkdown markdownToWp
  rw [hsplit]
  simp [buildFrontmatter, hyaml2]

/-- Claim C10 witness: the round trip at a concrete item and a concrete
delimiter-free YAML codec pair. -/
theorem codec_roundtrip_recovers_id_type_body_witness :
    parseYamlConst (jsTrim (stringifyYamlConst (buildFrontmatter itemHello "post")))
        = buildFrontmatter itemHello "post"
    ∧ containsDelim (jsTrim (stringifyYamlConst (buildFrontmatter itemHello "post"))).data
        = false
    ∧ (['-', '-', '-'].isPrefixOf (resolveContent itemHello).data) = false
    ∧ ∃ parsed,
        markdownToWp parseYamlConst (wpToMarkdown stringifyYamlConst itemHello "post")
            = some parsed
          ∧ parsed.id = some itemHello.id ∧ parsed.typ = "post"
          ∧ parsed.data.content = resolveContent itemHello :=
  ⟨rfl, by decide, by decide,
    codec_roundtrip_recovers_id_type_body stringifyYamlConst parseYamlConst itemHello "post"
      rfl (by decide) (by decide)⟩
